import Mathlib

/-!
Shallow embedding of the download orchestration layer of the objaverse
repository (`objaverse/xl/__init__.py` plus the two driver scripts).

The layer has three entry points:
  * `get_annotations` — concatenates the per-source annotation tables of all
    four registered source downloaders (in the fixed registration order) with
    the row index reset (`pd.concat(..., ignore_index=True)`).
  * `get_alignment_annotations` — the same, restricted to the allowlisted
    sources `github` and `sketchfab`.
  * `download_objects` — validates that every `source` value of the request
    table is one of the four known sources, then, for each distinct source
    present, calls that source downloader once with the filtered sub-table
    and merges the returned mappings with Python `dict.update` semantics.

The per-source downloaders are external collaborators; they are modelled as
abstract function parameters.  `download_objects` is instrumented to also
return the list of collaborator calls it made, so that dispatch properties
(which downloader was called, with what partition and arguments) can be
stated.
-/

/-- One row of an annotation / request table.  The Python code stores these as
rows of a pandas DataFrame with columns `fileIdentifier`, `license`,
`source`, `fileType`, `sha256`, `metadata`. -/
structure Row where
  fileIdentifier : String
  license : String
  source : String
  fileType : String
  sha256 : String
  metadata : String
deriving Repr, DecidableEq

/-- The keys of the `downloaders` registry, in Python dict insertion order:
github, thingiverse, smithsonian, sketchfab. -/
def downloader_sources : List String :=
  ["github", "thingiverse", "smithsonian", "sketchfab"]

/-- The `all_sources` set literal checked by `download_objects`. -/
def all_sources : List String :=
  ["github", "thingiverse", "smithsonian", "sketchfab"]

/-- The allowlist `{"github", "sketchfab"}` used by
`get_alignment_annotations`. -/
def alignment_sources : List String := ["github", "sketchfab"]

/-- First-occurrence deduplication, the order produced by pandas
`Series.unique()`; `seen` accumulates the values already emitted. -/
def uniqueFirstAux (seen : List String) : List String → List String
  | [] => []
  | s :: rest =>
    if s ∈ seen then uniqueFirstAux seen rest
    else s :: uniqueFirstAux (s :: seen) rest

/-- The distinct `source` values of a table, first occurrence first
(`set(objects["source"].unique().tolist())`, given a concrete iteration
order). -/
def uniqueFirst (l : List String) : List String := uniqueFirstAux [] l

/-- Python `dict` single-key write: overwrite the binding in place if the key
is present, otherwise append the new binding. -/
def dictInsert : List (String × String) → String → String → List (String × String)
  | [], k, v => [(k, v)]
  | p :: d, k, v => if p.1 == k then (k, v) :: d else p :: dictInsert d k v

/-- Python `dict.update`: fold the bindings of `m` into `d` left to right. -/
def dictUpdate (d m : List (String × String)) : List (String × String) :=
  m.foldl (fun acc p => dictInsert acc p.1 p.2) d

/-- Dictionary lookup (first binding of the key). -/
def dictGet (d : List (String × String)) (k : String) : Option String :=
  (d.find? (fun p => p.1 == k)).map Prod.snd

/-- The value the key ends up with when the bindings of one list are written
into a dict left to right: the last binding for the key wins.  On a list
with no repeated keys this is ordinary lookup. -/
def mapLast : List (String × String) → String → Option String
  | [], _ => none
  | p :: m, k =>
    match mapLast m k with
    | some v => some v
    | none => if p.1 == k then some p.2 else none

/-- Modelled from the spec: the merge step of the dispatcher, in the spec's
words — union all per-source result mappings, a later mapping overriding an
earlier one on a shared key (last-writer-wins). -/
def specMergedLookup : List (List (String × String)) → String → Option String
  | [], _ => none
  | m :: ms, k =>
    match specMergedLookup ms k with
    | some v => some v
    | none => mapLast m k

/-- One collaborator call made by the dispatcher:
`downloaders[source].download_objects(partition, download_dir, processes,
handlers, **kwargs)`.  The three lifecycle handlers are opaque to the
dispatcher and are modelled as a single value of an arbitrary type `χ`; the
keyword arguments likewise as a value of an arbitrary type `κ`. -/
structure DispatchCall (χ κ : Type) where
  source : String
  part : List Row
  download_dir : Option String
  processes : Option Nat
  callbacks : χ
  kwargs : κ
deriving Repr

/-- Body of the dispatch loop of `download_objects`: filter the request table
to the rows of one source, call that source downloader, merge the returned
mapping into the accumulator with `dict.update`, and record the call. -/
def dispatchStep {χ κ : Type}
    (down : String → List Row → Option String → Option Nat → χ → κ → List (String × String))
    (objects : List Row) (download_dir : Option String) (processes : Option Nat)
    (callbacks : χ) (kwargs : κ)
    (acc : List (String × String) × List (DispatchCall χ κ)) (s : String) :
    List (String × String) × List (DispatchCall χ κ) :=
  (dictUpdate acc.1
      (down s (objects.filter (fun r => r.source == s)) download_dir processes callbacks kwargs),
    acc.2 ++ [⟨s, objects.filter (fun r => r.source == s), download_dir, processes, callbacks, kwargs⟩])

/-- `download_objects` of `objaverse/xl/__init__.py`.  `down` abstracts the
per-source collaborators (`downloaders[source].download_objects`).  On a
request table whose distinct sources are not a subset of `all_sources` the
function raises `ValueError` naming the distinct-source set (modelled as
`Except.error` carrying that set); otherwise it loops over the distinct
sources, dispatching one collaborator call per source and merging the
returned mappings, and returns the merged mapping together with the trace of
collaborator calls made. -/
def download_objects {χ κ : Type}
    (down : String → List Row → Option String → Option Nat → χ → κ → List (String × String))
    (objects : List Row) (download_dir : Option String) (processes : Option Nat)
    (callbacks : χ) (kwargs : κ) :
    Except (List String) (List (String × String) × List (DispatchCall χ κ)) :=
  if ∀ s ∈ uniqueFirst (objects.map Row.source), s ∈ all_sources then
    Except.ok ((uniqueFirst (objects.map Row.source)).foldl
      (dispatchStep down objects download_dir processes callbacks kwargs) ([], []))
  else
    Except.error (uniqueFirst (objects.map Row.source))

/-- The dispatch plan determined by a request table alone: one entry per
distinct source, paired with the sub-table of rows of that source, in table
order. -/
def dispatchPlan (objects : List Row) : List (String × List Row) :=
  (uniqueFirst (objects.map Row.source)).map
    (fun s => (s, objects.filter (fun r => r.source == s)))

/-- A table with its pandas row index: each row paired with its index. -/
def reindex (rows : List Row) : List (Nat × Row) :=
  (List.range rows.length).zip rows

/-- `pd.concat(tables, ignore_index=True)`: concatenate the rows of the
tables in order, discard the incoming indices, and renumber from 0. -/
def concat_ignore_index (tabs : List (List (Nat × Row))) : List (Nat × Row) :=
  reindex ((tabs.map (fun t => t.map Prod.snd)).flatten)

/-- Evaluate a fallible per-source fetch on each source in order, stopping at
the first failure (the Python list comprehension, where a raised exception
propagates before `pd.concat` runs). -/
def collectTables (f : String → Except String (List (Nat × Row))) :
    List String → Except String (List (List (Nat × Row)))
  | [] => Except.ok []
  | s :: rest =>
    match f s with
    | Except.error e => Except.error e
    | Except.ok t =>
      match collectTables f rest with
      | Except.error e => Except.error e
      | Except.ok ts => Except.ok (t :: ts)

/-- `get_annotations` of `objaverse/xl/__init__.py`: fetch every registered
source downloader's annotation table and concatenate with the index reset.
`g` abstracts `downloader.get_annotations(download_dir, refresh)`. -/
def get_annotations
    (g : String → String → Bool → Except String (List (Nat × Row)))
    (download_dir : String) (refresh : Bool) :
    Except String (List (Nat × Row)) :=
  Except.map concat_ignore_index
    (collectTables (fun s => g s download_dir refresh) downloader_sources)

/-- The sources whose `get_alignment_annotations` is fetched: the registered
sources restricted to the allowlist (`if source in {"github", "sketchfab"}`). -/
def alignment_queried : List String :=
  downloader_sources.filter (fun s => alignment_sources.contains s)

/-- `get_alignment_annotations` of `objaverse/xl/__init__.py`: like
`get_annotations` but only over the allowlisted sources.  `g` abstracts
`downloader.get_alignment_annotations(download_dir, refresh)`. -/
def get_alignment_annotations
    (g : String → String → Bool → Except String (List (Nat × Row)))
    (download_dir : String) (refresh : Bool) :
    Except String (List (Nat × Row)) :=
  Except.map concat_ignore_index
    (collectTables (fun s => g s download_dir refresh) alignment_queried)

/-! ### Helper lemmas -/

theorem mem_uniqueFirstAux (s : String) (seen l : List String) :
    s ∈ uniqueFirstAux seen l ↔ s ∈ l ∧ s ∉ seen := by
  induction l generalizing seen with
  | nil => simp [uniqueFirstAux]
  | cons a rest ih =>
    by_cases ha : a ∈ seen
    · simp only [uniqueFirstAux, if_pos ha, ih, List.mem_cons]
      constructor
      · rintro ⟨hr, hs⟩
        exact ⟨Or.inr hr, hs⟩
      · rintro ⟨hr | hr, hs⟩
        · exact absurd (hr ▸ ha) hs
        · exact ⟨hr, hs⟩
    · simp only [uniqueFirstAux, if_neg ha, List.mem_cons, ih, not_or]
      constructor
      · rintro (rfl | ⟨hr, hs⟩)
        · exact ⟨Or.inl rfl, ha⟩
        · exact ⟨Or.inr hr, hs.2⟩
      · rintro ⟨rfl | hr, hs⟩
        · exact Or.inl rfl
        · by_cases hsa : s = a
          · exact Or.inl hsa
          · exact Or.inr ⟨hr, hsa, hs⟩

theorem mem_uniqueFirst (s : String) (l : List String) :
    s ∈ uniqueFirst l ↔ s ∈ l := by
  simp [uniqueFirst, mem_uniqueFirstAux]

theorem nodup_uniqueFirstAux (seen l : List String) :
    (uniqueFirstAux seen l).Nodup := by
  induction l generalizing seen with
  | nil => simp [uniqueFirstAux]
  | cons a rest ih =>
    by_cases ha : a ∈ seen
    · simpa [uniqueFirstAux, if_pos ha] using ih seen
    · simp only [uniqueFirstAux, if_neg ha]
      refine List.nodup_cons.mpr ⟨?_, ih (a :: seen)⟩
      intro hmem
      exact ((mem_uniqueFirstAux a (a :: seen) rest).mp hmem).2 (List.mem_cons_self a seen)

theorem nodup_uniqueFirst (l : List String) : (uniqueFirst l).Nodup :=
  nodup_uniqueFirstAux [] l

theorem dictGet_cons (p : String × String) (d : List (String × String)) (k : String) :
    dictGet (p :: d) k = if p.1 == k then some p.2 else dictGet d k := by
  by_cases h : p.1 = k
  · simp [dictGet, List.find?, h]
  · have hb : (p.1 == k) = false := beq_eq_false_iff_ne.mpr h
    simp [dictGet, List.find?, hb]

theorem dictGet_dictInsert (d : List (String × String)) (k v k2 : String) :
    dictGet (dictInsert d k v) k2 = if k2 = k then some v else dictGet d k2 := by
  induction d with
  | nil =>
    by_cases h : k2 = k
    · simp [dictInsert, dictGet_cons, h]
    · have hb : (k == k2) = false := beq_eq_false_iff_ne.mpr (Ne.symm h)
      simp [dictInsert, dictGet_cons, h, hb, dictGet]
  | cons p d ih =>
    by_cases hp : p.1 = k
    · have hb : (p.1 == k) = true := beq_iff_eq.mpr hp
      simp only [dictInsert, hb, if_true]
      by_cases h : k2 = k
      · simp [dictGet_cons, h]
      · have h1 : (k == k2) = false := beq_eq_false_iff_ne.mpr (Ne.symm h)
        have hp2 : p.1 ≠ k2 := by rw [hp]; exact Ne.symm h
        have h2 : (p.1 == k2) = false := beq_eq_false_iff_ne.mpr hp2
        simp [dictGet_cons, h, h1, h2]
    · have hb : (p.1 == k) = false := beq_eq_false_iff_ne.mpr hp
      simp only [dictInsert, hb, Bool.false_eq_true, if_false]
      by_cases hpk : p.1 = k2
      · have hk2 : ¬k2 = k := by rw [← hpk]; exact hp
        have hb2 : (p.1 == k2) = true := beq_iff_eq.mpr hpk
        simp [dictGet_cons, hb2, hk2]
      · have hb2 : (p.1 == k2) = false := beq_eq_false_iff_ne.mpr hpk
        simp [dictGet_cons, hb2, ih]

theorem dictGet_dictUpdate (m d : List (String × String)) (k : String) :
    dictGet (dictUpdate d m) k =
      match mapLast m k with
      | some v => some v
      | none => dictGet d k := by
  induction m generalizing d with
  | nil => simp [dictUpdate, mapLast]
  | cons p m ih =>
    have hcons : dictUpdate d (p :: m) = dictUpdate (dictInsert d p.1 p.2) m := rfl
    rw [hcons, ih]
    cases hm : mapLast m k with
    | some v => simp [mapLast, hm]
    | none =>
      simp only [mapLast, hm]
      by_cases h : k = p.1
      · have hb : (p.1 == k) = true := beq_iff_eq.mpr h.symm
        simp [dictGet_dictInsert, h, hb]
      · have hb : (p.1 == k) = false := beq_eq_false_iff_ne.mpr (Ne.symm h)
        simp [dictGet_dictInsert, h, hb]

theorem dictGet_foldl_dictUpdate (ms : List (List (String × String)))
    (d : List (String × String)) (k : String) :
    dictGet (ms.foldl dictUpdate d) k =
      match specMergedLookup ms k with
      | some v => some v
      | none => dictGet d k := by
  induction ms generalizing d with
  | nil => simp [specMergedLookup]
  | cons m ms ih =>
    simp only [List.foldl_cons, ih]
    cases hs : specMergedLookup ms k with
    | some v => simp [specMergedLookup, hs]
    | none =>
      simp only [specMergedLookup, hs, dictGet_dictUpdate]

theorem specMergedLookup_eq_none (ms : List (List (String × String))) (k : String)
    (h : ∀ m ∈ ms, mapLast m k = none) : specMergedLookup ms k = none := by
  induction ms with
  | nil => rfl
  | cons m ms ih =>
    have hm := h m (List.mem_cons_self m ms)
    have hrest := ih (fun m2 hm2 => h m2 (List.mem_cons_of_mem m hm2))
    simp [specMergedLookup, hrest, hm]

theorem foldl_dispatchStep_trace {χ κ : Type}
    (down : String → List Row → Option String → Option Nat → χ → κ → List (String × String))
    (objects : List Row) (dd : Option String) (pr : Option Nat) (cb : χ) (kw : κ)
    (l : List String) (d : List (String × String)) (t : List (DispatchCall χ κ)) :
    (l.foldl (dispatchStep down objects dd pr cb kw) (d, t)).2 =
      t ++ l.map (fun s =>
        (⟨s, objects.filter (fun r => r.source == s), dd, pr, cb, kw⟩ : DispatchCall χ κ)) := by
  induction l generalizing d t with
  | nil => simp
  | cons a l ih =>
    simp only [List.foldl_cons, dispatchStep, List.map_cons]
    rw [ih]
    simp

theorem foldl_dispatchStep_dict {χ κ : Type}
    (down : String → List Row → Option String → Option Nat → χ → κ → List (String × String))
    (objects : List Row) (dd : Option String) (pr : Option Nat) (cb : χ) (kw : κ)
    (l : List String) (d : List (String × String)) (t : List (DispatchCall χ κ)) :
    (l.foldl (dispatchStep down objects dd pr cb kw) (d, t)).1 =
      l.foldl (fun acc s =>
        dictUpdate acc (down s (objects.filter (fun r => r.source == s)) dd pr cb kw)) d := by
  induction l generalizing d t with
  | nil => rfl
  | cons a l ih =>
    simp only [List.foldl_cons, dispatchStep]
    exact ih _ _

theorem download_objects_valid {χ κ : Type}
    (down : String → List Row → Option String → Option Nat → χ → κ → List (String × String))
    (objects : List Row) (dd : Option String) (pr : Option Nat) (cb : χ) (kw : κ)
    (h : ∀ r ∈ objects, r.source ∈ all_sources) :
    download_objects down objects dd pr cb kw =
      Except.ok ((uniqueFirst (objects.map Row.source)).foldl
        (dispatchStep down objects dd pr cb kw) ([], [])) := by
  have hcond : ∀ s ∈ uniqueFirst (objects.map Row.source), s ∈ all_sources := by
    intro s hs
    obtain ⟨r, hr, rfl⟩ := List.mem_map.mp ((mem_uniqueFirst s _).mp hs)
    exact h r hr
  unfold download_objects
  rw [if_pos hcond]

theorem download_objects_invalid {χ κ : Type}
    (down : String → List Row → Option String → Option Nat → χ → κ → List (String × String))
    (objects : List Row) (dd : Option String) (pr : Option Nat) (cb : χ) (kw : κ)
    (h : ∃ r ∈ objects, r.source ∉ all_sources) :
    download_objects down objects dd pr cb kw =
      Except.error (uniqueFirst (objects.map Row.source)) := by
  obtain ⟨r, hr, hbad⟩ := h
  have hcond : ¬∀ s ∈ uniqueFirst (objects.map Row.source), s ∈ all_sources := by
    intro hall
    exact hbad (hall r.source ((mem_uniqueFirst _ _).mpr (List.mem_map_of_mem Row.source hr)))
  unfold download_objects
  rw [if_neg hcond]

theorem collectTables_ok (f : String → Except String (List (Nat × Row)))
    (tabs : String → List (Nat × Row)) (l : List String)
    (h : ∀ s ∈ l, f s = Except.ok (tabs s)) :
    collectTables f l = Except.ok (l.map tabs) := by
  induction l with
  | nil => rfl
  | cons a l ih =>
    have ha := h a (List.mem_cons_self a l)
    have hrest := ih (fun s hs => h s (List.mem_cons_of_mem a hs))
    simp [collectTables, ha, hrest]

theorem collectTables_error (f : String → Except String (List (Nat × Row))) (l : List String)
    (h : ∃ s ∈ l, ∃ e, f s = Except.error e) :
    ∃ e, collectTables f l = Except.error e := by
  induction l with
  | nil =>
    obtain ⟨s, hs, _⟩ := h
    exact absurd hs (List.not_mem_nil s)
  | cons a l ih =>
    cases hfa : f a with
    | error e => exact ⟨e, by simp [collectTables, hfa]⟩
    | ok t =>
      obtain ⟨s, hs, e, he⟩ := h
      rcases List.mem_cons.mp hs with rfl | hs2
      · rw [hfa] at he
        exact Except.noConfusion he
      · obtain ⟨e2, he2⟩ := ih ⟨s, hs2, e, he⟩
        exact ⟨e2, by simp [collectTables, hfa, he2]⟩

theorem collectTables_congr (f1 f2 : String → Except String (List (Nat × Row)))
    (l : List String) (h : ∀ s ∈ l, f1 s = f2 s) :
    collectTables f1 l = collectTables f2 l := by
  induction l with
  | nil => rfl
  | cons a l ih =>
    simp only [collectTables, h a (List.mem_cons_self a l),
      ih (fun s hs => h s (List.mem_cons_of_mem a hs))]

theorem reindex_map_snd (rows : List Row) : (reindex rows).map Prod.snd = rows :=
  List.map_snd_zip _ rows (by rw [List.length_range])

theorem reindex_map_fst (rows : List Row) :
    (reindex rows).map Prod.fst = List.range rows.length :=
  List.map_fst_zip _ rows (by rw [List.length_range])

theorem reindex_length (rows : List Row) : (reindex rows).length = rows.length := by
  rw [reindex, List.length_zip, List.length_range, min_self]

theorem mem_reindex_snd (pr2 : Nat × Row) (rows : List Row) (h : pr2 ∈ reindex rows) :
    pr2.2 ∈ rows :=
  (List.of_mem_zip h).2

theorem download_objects_ok_parts {χ κ : Type}
    (down : String → List Row → Option String → Option Nat → χ → κ → List (String × String))
    (objects : List Row) (dd : Option String) (pr : Option Nat) (cb : χ) (kw : κ)
    (h : ∀ r ∈ objects, r.source ∈ all_sources) :
    download_objects down objects dd pr cb kw =
      Except.ok
        ((uniqueFirst (objects.map Row.source)).foldl
            (fun acc s =>
              dictUpdate acc (down s (objects.filter (fun r => r.source == s)) dd pr cb kw)) [],
          (uniqueFirst (objects.map Row.source)).map (fun s =>
            (⟨s, objects.filter (fun r => r.source == s), dd, pr, cb, kw⟩ : DispatchCall χ κ))) := by
  rw [download_objects_valid down objects dd pr cb kw h]
  congr 1
  refine Prod.ext ?_ ?_
  · exact foldl_dispatchStep_dict down objects dd pr cb kw _ [] []
  · rw [foldl_dispatchStep_trace]
    simp

/-! ### Claim theorems -/

/-- C1: a request table containing at least one row whose source is outside
{github, thingiverse, smithsonian, sketchfab} makes `download_objects` raise
the invalid-source error; the raised error names every offending source
value, and no collaborator call is dispatched (the call never produces an ok
result, hence no dispatch trace). -/
theorem download_objects_invalid_source_fail_fast {χ κ : Type}
    (down : String → List Row → Option String → Option Nat → χ → κ → List (String × String))
    (objects : List Row) (dd : Option String) (pr : Option Nat) (cb : χ) (kw : κ)
    (h : ∃ r ∈ objects, r.source ∉ all_sources) :
    ∃ bad, download_objects down objects dd pr cb kw = Except.error bad ∧
      (∀ r ∈ objects, r.source ∉ all_sources → r.source ∈ bad) ∧
      (∀ out, download_objects down objects dd pr cb kw ≠ Except.ok out) := by
  refine ⟨uniqueFirst (objects.map Row.source),
    download_objects_invalid down objects dd pr cb kw h, ?_, ?_⟩
  · intro r hr _
    exact (mem_uniqueFirst _ _).mpr (List.mem_map_of_mem Row.source hr)
  · intro out hout
    rw [download_objects_invalid down objects dd pr cb kw h] at hout
    exact Except.noConfusion hout

/-- C2: on a request table whose sources all lie in the enumerated set,
`download_objects` dispatches exactly one collaborator call per distinct
source present (the traced source list is duplicate-free and covers exactly
the sources occurring in the table), and each call's partition is exactly the
filtered subsequence of input rows carrying that source — no rows dropped,
duplicated, or reordered. -/
theorem download_objects_one_call_per_source {χ κ : Type}
    (down : String → List Row → Option String → Option Nat → χ → κ → List (String × String))
    (objects : List Row) (dd : Option String) (pr : Option Nat) (cb : χ) (kw : κ)
    (h : ∀ r ∈ objects, r.source ∈ all_sources) :
    ∃ res calls, download_objects down objects dd pr cb kw = Except.ok (res, calls) ∧
      calls.map (fun c => (c.source, c.part)) = dispatchPlan objects ∧
      (calls.map (fun c => c.source)).Nodup ∧
      (∀ s, (∃ c ∈ calls, c.source = s) ↔ ∃ r ∈ objects, r.source = s) ∧
      (∀ c ∈ calls, c.part = objects.filter (fun r => r.source == c.source)) := by
  refine ⟨_, _, download_objects_ok_parts down objects dd pr cb kw h, ?_, ?_, ?_, ?_⟩
  · rw [dispatchPlan, List.map_map]
    rfl
  · rw [List.map_map]
    have hid : (uniqueFirst (objects.map Row.source)).map
        ((fun c : DispatchCall χ κ => c.source) ∘ (fun s =>
          (⟨s, objects.filter (fun r => r.source == s), dd, pr, cb, kw⟩ : DispatchCall χ κ))) =
        uniqueFirst (objects.map Row.source) := List.map_id _
    rw [hid]
    exact nodup_uniqueFirst _
  · intro s
    constructor
    · rintro ⟨c, hc, rfl⟩
      obtain ⟨s2, hs2, rfl⟩ := List.mem_map.mp hc
      obtain ⟨r, hr, rfl⟩ := List.mem_map.mp ((mem_uniqueFirst _ _).mp hs2)
      exact ⟨r, hr, rfl⟩
    · rintro ⟨r, hr, rfl⟩
      refine ⟨⟨r.source, objects.filter (fun r2 => r2.source == r.source), dd, pr, cb, kw⟩, ?_, rfl⟩
      exact List.mem_map_of_mem _
        ((mem_uniqueFirst _ _).mpr (List.mem_map_of_mem Row.source hr))
  · intro c hc
    obtain ⟨s2, _, rfl⟩ := List.mem_map.mp hc
    rfl

/-- C9: a request table with zero rows passes the source check vacuously,
dispatches no collaborator call, and yields the empty mapping. -/
theorem download_objects_empty_table {χ κ : Type}
    (down : String → List Row → Option String → Option Nat → χ → κ → List (String × String))
    (dd : Option String) (pr : Option Nat) (cb : χ) (kw : κ) :
    download_objects down ([] : List Row) dd pr cb kw = Except.ok ([], []) := by
  rfl

/-- C10: on a request table whose sources all lie in the enumerated set,
every dispatched collaborator call receives a non-empty partition, and every
row of that partition carries exactly the source of the downloader being
invoked. -/
theorem download_objects_partition_invariant {χ κ : Type}
    (down : String → List Row → Option String → Option Nat → χ → κ → List (String × String))
    (objects : List Row) (dd : Option String) (pr : Option Nat) (cb : χ) (kw : κ)
    (h : ∀ r ∈ objects, r.source ∈ all_sources) :
    ∃ res calls, download_objects down objects dd pr cb kw = Except.ok (res, calls) ∧
      ∀ c ∈ calls, c.part ≠ [] ∧ ∀ r ∈ c.part, r.source = c.source := by
  refine ⟨_, _, download_objects_ok_parts down objects dd pr cb kw h, ?_⟩
  intro c hc
  obtain ⟨s2, hs2, rfl⟩ := List.mem_map.mp hc
  obtain ⟨r, hr, rfl⟩ := List.mem_map.mp ((mem_uniqueFirst _ _).mp hs2)
  constructor
  · have hrf : r ∈ objects.filter (fun r2 => r2.source == r.source) :=
      List.mem_filter.mpr ⟨hr, beq_self_eq_true r.source⟩
    exact List.ne_nil_of_mem hrf
  · intro r2 hr2
    exact beq_iff_eq.mp (List.mem_filter.mp hr2).2

/-- C8: on a request table that passes source validation, the extra keyword
arguments (and the callback references) given to `download_objects` are
forwarded unchanged — for any type of keyword-argument payload, every
dispatched collaborator call carries exactly the given payload — and the
dispatch itself (which sources are called, with which partitions) equals
`dispatchPlan objects`, a function of the table alone, so the dispatcher
neither reads nor modifies the payload. -/
theorem download_objects_forwards_kwargs {χ κ : Type}
    (down : String → List Row → Option String → Option Nat → χ → κ → List (String × String))
    (objects : List Row) (dd : Option String) (pr : Option Nat) (cb : χ) (kw : κ)
    (h : ∀ r ∈ objects, r.source ∈ all_sources) :
    ∃ res calls, download_objects down objects dd pr cb kw = Except.ok (res, calls) ∧
      (∀ c ∈ calls, c.kwargs = kw ∧ c.callbacks = cb ∧
        c.download_dir = dd ∧ c.processes = pr) ∧
      calls.map (fun c => (c.source, c.part)) = dispatchPlan objects := by
  refine ⟨_, _, download_objects_ok_parts down objects dd pr cb kw h, ?_, ?_⟩
  · intro c hc
    obtain ⟨s2, _, rfl⟩ := List.mem_map.mp hc
    exact ⟨rfl, rfl, rfl, rfl⟩
  · rw [dispatchPlan, List.map_map]
    rfl

/-- C3: on a request table that passes source validation, the mapping
returned by `download_objects` is the last-writer-wins union of the mappings
returned by the dispatched collaborator calls (in dispatch order), and a key
carried by none of the per-call mappings is absent from the result. -/
theorem download_objects_merge_union {χ κ : Type}
    (down : String → List Row → Option String → Option Nat → χ → κ → List (String × String))
    (objects : List Row) (dd : Option String) (pr : Option Nat) (cb : χ) (kw : κ)
    (h : ∀ r ∈ objects, r.source ∈ all_sources) :
    ∃ res calls, download_objects down objects dd pr cb kw = Except.ok (res, calls) ∧
      (∀ k, dictGet res k =
        specMergedLookup
          (calls.map (fun c =>
            down c.source c.part c.download_dir c.processes c.callbacks c.kwargs)) k) ∧
      (∀ k,
        (∀ c ∈ calls,
          mapLast (down c.source c.part c.download_dir c.processes c.callbacks c.kwargs) k =
            none) →
        dictGet res k = none) := by
  have hcomp :
      ((fun c : DispatchCall χ κ =>
          down c.source c.part c.download_dir c.processes c.callbacks c.kwargs) ∘
        (fun s =>
          (⟨s, objects.filter (fun r => r.source == s), dd, pr, cb, kw⟩ : DispatchCall χ κ))) =
      fun s => down s (objects.filter (fun r => r.source == s)) dd pr cb kw := rfl
  have hfold : (uniqueFirst (objects.map Row.source)).foldl
      (fun acc s =>
        dictUpdate acc (down s (objects.filter (fun r => r.source == s)) dd pr cb kw)) [] =
      ((uniqueFirst (objects.map Row.source)).map
        (fun s => down s (objects.filter (fun r => r.source == s)) dd pr cb kw)).foldl
        dictUpdate [] := by
    rw [List.foldl_map]
  refine ⟨_, _, download_objects_ok_parts down objects dd pr cb kw h, ?_, ?_⟩
  · intro k
    rw [List.map_map, hcomp, hfold, dictGet_foldl_dictUpdate]
    cases specMergedLookup ((uniqueFirst (objects.map Row.source)).map
      (fun s => down s (objects.filter (fun r => r.source == s)) dd pr cb kw)) k <;> rfl
  · intro k hnone
    rw [hfold, dictGet_foldl_dictUpdate]
    have hsm : specMergedLookup ((uniqueFirst (objects.map Row.source)).map
        (fun s => down s (objects.filter (fun r => r.source == s)) dd pr cb kw)) k = none := by
      refine specMergedLookup_eq_none _ _ ?_
      intro m hm
      obtain ⟨s2, hs2, rfl⟩ := List.mem_map.mp hm
      exact hnone ⟨s2, objects.filter (fun r => r.source == s2), dd, pr, cb, kw⟩
        (List.mem_map_of_mem _ hs2)
    rw [hsm]
    rfl

/-- C4: `get_alignment_annotations` queries exactly the two allowlisted
sources (github and sketchfab), silently excluding the other two registered
sources; and assuming every queried downloader's rows carry its own source,
every row of the returned table has a source in the allowlisted set. -/
theorem get_alignment_annotations_allowlist
    (g : String → String → Bool → Except String (List (Nat × Row)))
    (dd : String) (refresh : Bool) (tabs : String → List (Nat × Row))
    (hok : ∀ s ∈ alignment_queried, g s dd refresh = Except.ok (tabs s))
    (hown : ∀ s ∈ alignment_queried, ∀ p ∈ tabs s, (Prod.snd p).source = s) :
    alignment_queried = ["github", "sketchfab"] ∧
    ∃ out, get_alignment_annotations g dd refresh = Except.ok out ∧
      ∀ p ∈ out, (Prod.snd p).source ∈ alignment_sources := by
  have hct := collectTables_ok (fun s => g s dd refresh) tabs alignment_queried hok
  refine ⟨by decide, concat_ignore_index (alignment_queried.map tabs), ?_, ?_⟩
  · unfold get_alignment_annotations
    rw [hct]
    rfl
  · intro p hp
    have hrow : p.2 ∈ ((alignment_queried.map tabs).map (fun t => t.map Prod.snd)).flatten :=
      mem_reindex_snd p _ hp
    obtain ⟨l, hl, hpl⟩ := List.mem_flatten.mp hrow
    obtain ⟨t, ht, rfl⟩ := List.mem_map.mp hl
    obtain ⟨s, hs, rfl⟩ := List.mem_map.mp ht
    obtain ⟨q, hq, hq2⟩ := List.mem_map.mp hpl
    have hsrc : q.2.source = s := hown s hs q hq
    have hmem : s ∈ alignment_sources :=
      List.mem_of_elem_eq_true (List.mem_filter.mp hs).2
    rw [← hq2, hsrc]
    exact hmem

/-- C5: when every registered source downloader's annotation fetch succeeds,
`get_annotations` returns the concatenation of the per-source tables in the
fixed registration order github, thingiverse, smithsonian, sketchfab — an
order independent of any input — with the row index reset to 0..n-1, no
per-source row index carried over, and no deduplication (the output length
is the sum of the per-source lengths). -/
theorem get_annotations_fixed_order_concat
    (g : String → String → Bool → Except String (List (Nat × Row)))
    (dd : String) (refresh : Bool) (tabs : String → List (Nat × Row))
    (hok : ∀ s ∈ downloader_sources, g s dd refresh = Except.ok (tabs s)) :
    ∃ out, get_annotations g dd refresh = Except.ok out ∧
      out.map Prod.snd =
        (downloader_sources.map (fun s => (tabs s).map Prod.snd)).flatten ∧
      out.map Prod.fst = List.range out.length ∧
      out.length = (downloader_sources.map (fun s => (tabs s).length)).sum ∧
      downloader_sources = ["github", "thingiverse", "smithsonian", "sketchfab"] := by
  have hct := collectTables_ok (fun s => g s dd refresh) tabs downloader_sources hok
  refine ⟨concat_ignore_index (downloader_sources.map tabs), ?_, ?_, ?_, ?_, rfl⟩
  · unfold get_annotations
    rw [hct]
    rfl
  · rw [concat_ignore_index, reindex_map_snd, List.map_map]
    rfl
  · rw [concat_ignore_index, reindex_map_fst, reindex_length]
  · rw [concat_ignore_index, reindex_length, List.length_flatten, List.map_map,
      List.map_map]
    have hfun : ((List.length ∘ fun t : List (Nat × Row) => List.map Prod.snd t) ∘ tabs) =
        (fun s => (tabs s).length) := by
      funext s
      simp [Function.comp, List.length_map]
    rw [hfun]

/-- C6: if any registered source's annotation fetch fails, the whole
`get_annotations` call fails with the propagated error and no partial
aggregate table is returned. -/
theorem get_annotations_no_partial_aggregate
    (g : String → String → Bool → Except String (List (Nat × Row)))
    (dd : String) (refresh : Bool)
    (h : ∃ s ∈ downloader_sources, ∃ e, g s dd refresh = Except.error e) :
    ∃ e, get_annotations g dd refresh = Except.error e ∧
      ∀ out, get_annotations g dd refresh ≠ Except.ok out := by
  obtain ⟨e, he⟩ := collectTables_error (fun s => g s dd refresh) downloader_sources h
  have hge : get_annotations g dd refresh = Except.error e := by
    unfold get_annotations
    rw [he]
    rfl
  exact ⟨e, hge, fun out hout => Except.noConfusion (hge.symm.trans hout)⟩

/-- C7: two `get_annotations` calls with `refresh = false` whose underlying
per-source fetches agree (no intervening source-side change) return
identical tables — the same rows with the same values in the same order. -/
theorem get_annotations_idempotent
    (g1 g2 : String → String → Bool → Except String (List (Nat × Row))) (dd : String)
    (h : ∀ s ∈ downloader_sources, g1 s dd false = g2 s dd false) :
    get_annotations g1 dd false = get_annotations g2 dd false := by
  unfold get_annotations
  rw [collectTables_congr (fun s => g1 s dd false) (fun s => g2 s dd false)
    downloader_sources h]

/-! ### Concrete witnesses -/

/-- A github row of the sample scenario of the spec. -/
def rowG : Row := ⟨"repo/a", "mit", "github", "obj", "abc", "mg"⟩

/-- A thingiverse row of the sample scenario of the spec. -/
def rowT : Row := ⟨"123", "mit", "thingiverse", "stl", "def", "mt"⟩

/-- A row whose source is outside the enumerated set. -/
def rowBad : Row := ⟨"x1", "cc", "unknown_host", "obj", "ccc", "mx"⟩

/-- A sample collaborator: maps every row of its partition to its source. -/
def demoDown : String → List Row → Option String → Option Nat → Unit → Unit →
    List (String × String) :=
  fun s rows _ _ _ _ => rows.map (fun r => (r.fileIdentifier, s))

/-- A sample per-source annotation table. -/
def demoTabs : String → List (Nat × Row) := fun s =>
  [(7, ⟨"id", "mit", s, "obj", "sha", "m"⟩)]

/-- A sample fetch that always succeeds with `demoTabs`. -/
def demoFetch : String → String → Bool → Except String (List (Nat × Row)) :=
  fun s _ _ => Except.ok (demoTabs s)

/-- A sample fetch that always fails. -/
def demoFailFetch : String → String → Bool → Except String (List (Nat × Row)) :=
  fun _ _ _ => Except.error "http 500"

/-- Concrete check of the C1 theorem on a table holding a github row and an
unknown-source row. -/
theorem download_objects_invalid_source_fail_fast_witness :
    ∃ bad, download_objects demoDown [rowG, rowBad] none none () () = Except.error bad ∧
      (∀ r ∈ [rowG, rowBad], r.source ∉ all_sources → r.source ∈ bad) ∧
      (∀ out, download_objects demoDown [rowG, rowBad] none none () () ≠ Except.ok out) :=
  download_objects_invalid_source_fail_fast demoDown [rowG, rowBad] none none () ()
    ⟨rowBad, by decide, by decide⟩

/-- Concrete check of the C2 theorem on the two-row github/thingiverse
table of the spec scenario. -/
theorem download_objects_one_call_per_source_witness :
    ∃ res calls,
      download_objects demoDown [rowG, rowT] none none () () = Except.ok (res, calls) ∧
      calls.map (fun c => (c.source, c.part)) = dispatchPlan [rowG, rowT] ∧
      (calls.map (fun c => c.source)).Nodup ∧
      (∀ s, (∃ c ∈ calls, c.source = s) ↔ ∃ r ∈ [rowG, rowT], r.source = s) ∧
      (∀ c ∈ calls, c.part = [rowG, rowT].filter (fun r => r.source == c.source)) :=
  download_objects_one_call_per_source demoDown [rowG, rowT] none none () () (by decide)

/-- Concrete check of the C3 theorem on the two-row table. -/
theorem download_objects_merge_union_witness :
    ∃ res calls,
      download_objects demoDown [rowG, rowT] none none () () = Except.ok (res, calls) ∧
      (∀ k, dictGet res k =
        specMergedLookup
          (calls.map (fun c =>
            demoDown c.source c.part c.download_dir c.processes c.callbacks c.kwargs)) k) ∧
      (∀ k,
        (∀ c ∈ calls,
          mapLast (demoDown c.source c.part c.download_dir c.processes c.callbacks c.kwargs)
            k = none) →
        dictGet res k = none) :=
  download_objects_merge_union demoDown [rowG, rowT] none none () () (by decide)

/-- Concrete check of the C8 theorem, with a string payload standing for the
keyword arguments. -/
theorem download_objects_forwards_kwargs_witness :
    ∃ res calls,
      download_objects (fun s rows _ _ _ (_ : String) => demoDown s rows none none () ())
          [rowG, rowT] none none () "zip" = Except.ok (res, calls) ∧
      (∀ c ∈ calls, c.kwargs = "zip" ∧ c.callbacks = () ∧
        c.download_dir = none ∧ c.processes = none) ∧
      calls.map (fun c => (c.source, c.part)) = dispatchPlan [rowG, rowT] :=
  download_objects_forwards_kwargs
    (fun s rows _ _ _ (_ : String) => demoDown s rows none none () ())
    [rowG, rowT] none none () "zip" (by decide)

/-- Concrete check of the C10 theorem on the two-row table. -/
theorem download_objects_partition_invariant_witness :
    ∃ res calls,
      download_objects demoDown [rowG, rowT] none none () () = Except.ok (res, calls) ∧
      ∀ c ∈ calls, c.part ≠ [] ∧ ∀ r ∈ c.part, r.source = c.source :=
  download_objects_partition_invariant demoDown [rowG, rowT] none none () () (by decide)

/-- Concrete check of the C4 theorem with the sample fetch. -/
theorem get_alignment_annotations_allowlist_witness :
    alignment_queried = ["github", "sketchfab"] ∧
    ∃ out, get_alignment_annotations demoFetch "~/.objaverse" false = Except.ok out ∧
      ∀ p ∈ out, (Prod.snd p).source ∈ alignment_sources :=
  get_alignment_annotations_allowlist demoFetch "~/.objaverse" false demoTabs
    (fun _ _ => rfl) (by decide)

/-- Concrete check of the C5 theorem with the sample fetch. -/
theorem get_annotations_fixed_order_concat_witness :
    ∃ out, get_annotations demoFetch "~/.objaverse" false = Except.ok out ∧
      out.map Prod.snd =
        (downloader_sources.map (fun s => (demoTabs s).map Prod.snd)).flatten ∧
      out.map Prod.fst = List.range out.length ∧
      out.length = (downloader_sources.map (fun s => (demoTabs s).length)).sum ∧
      downloader_sources = ["github", "thingiverse", "smithsonian", "sketchfab"] :=
  get_annotations_fixed_order_concat demoFetch "~/.objaverse" false demoTabs
    (fun _ _ => rfl)

/-- Concrete check of the C6 theorem with the failing fetch. -/
theorem get_annotations_no_partial_aggregate_witness :
    ∃ e, get_annotations demoFailFetch "~/.objaverse" false = Except.error e ∧
      ∀ out, get_annotations demoFailFetch "~/.objaverse" false ≠ Except.ok out :=
  get_annotations_no_partial_aggregate demoFailFetch "~/.objaverse" false
    ⟨"github", by decide, "http 500", rfl⟩

/-- Concrete check of the C7 theorem with the sample fetch on both calls. -/
theorem get_annotations_idempotent_witness :
    get_annotations demoFetch "~/.objaverse" false =
      get_annotations demoFetch "~/.objaverse" false :=
  get_annotations_idempotent demoFetch demoFetch "~/.objaverse" (fun _ _ => rfl)
